import Mathlib

/-!
Verification development for the C4Audit report extractor
(src/parse_code4rena_reports.py).

The embedding models an HTML document the way the parser consumes it:
a list of sibling element or string nodes, each element carrying a tag
name, an optional id attribute, an optional href attribute, and a list
of children.  Headings of the reports live at the top level of that
sibling list, which is how the parser addresses them (it walks
find_next_sibling chains starting from h1 and h2 anchors).

Text handling follows BeautifulSoup get_text with a single space
separator and strip=True: every descendant string is stripped, empty
results are skipped, and the rest are joined with single spaces.
Regular expressions of the source are compiled by hand into character
list matchers with the same leftmost search semantics as re.search and
the same anchored semantics as re.match.  Character classes are taken
at their ASCII meaning.
-/

set_option maxRecDepth 4000

namespace C4Audit

/-- A node of the parsed HTML tree: either a bare string or an element
with tag name, optional id attribute, optional href attribute and
children. -/
inductive Node where
  | str (s : String) : Node
  | elem (tag : String) (idAttr : Option String) (hrefAttr : Option String)
      (children : List Node) : Node

/-- Tag name of a node; strings have none (NavigableString name is None). -/
def Node.name : Node → Option String
  | .str _ => none
  | .elem t _ _ _ => some t

/-- The id attribute of an element node. -/
def Node.idA : Node → Option String
  | .str _ => none
  | .elem _ i _ _ => i

/-- The href attribute of an element node. -/
def Node.hrefA : Node → Option String
  | .str _ => none
  | .elem _ _ h _ => h

/-- Whitespace characters stripped by Python str.strip and matched by
the regex class backslash-s (ASCII part). -/
def isSpaceC (c : Char) : Bool :=
  c = ' ' || c = '\t' || c = '\n' || c = '\x0d' || c = '\x0b' || c = '\x0c'

/-- Python str.strip on a character list. -/
def trimChars (cs : List Char) : List Char :=
  ((cs.dropWhile isSpaceC).reverse.dropWhile isSpaceC).reverse

/-- Python str.strip on a String. -/
def pyStrip (s : String) : String := String.mk (trimChars s.data)

/-- Join character-list fragments with single spaces, as str.join with
a one space separator does. -/
def joinSp : List (List Char) → List Char
  | [] => []
  | [x] => x
  | x :: y :: rest => x ++ ' ' :: joinSp (y :: rest)

/-- Python " ".join on strings. -/
def joinSpace (parts : List String) : String :=
  String.mk (joinSp (parts.map String.data))

/-- Value of a decimal digit string, most significant digit first. -/
def digitsVal (ds : List Char) : Nat :=
  ds.foldl (fun a c => 10 * a + (c.toNat - 48)) 0

/-- Embeds normalize_number (src/parse_code4rena_reports.py lines
22-30): drop every character that is not a decimal digit and read the
remainder in base 10; an empty remainder (which in the source raises
ValueError inside the try block, or hits the early return for falsy
input) yields 0. -/
def normalize_number (num_str : String) : Nat :=
  let ds := num_str.data.filter (fun c => c.isDigit)
  if ds = [] then 0 else digitsVal ds

mutual
/-- All descendant strings of a node in document order, raw
(BeautifulSoup strings generator). -/
def textsNode : Node → List String
  | .str s => [s]
  | .elem _ _ _ cs => textsList cs

/-- All descendant strings of a node list in document order. -/
def textsList : List Node → List String
  | [] => []
  | n :: ns => textsNode n ++ textsList ns
end

/-- BeautifulSoup get_text with a single space separator and
strip=True on one node: strip each descendant string, skip empties,
join with single spaces. -/
def Node.getText (n : Node) : String :=
  joinSpace (((textsNode n).map pyStrip).filter (fun s => s ≠ ""))

/-- The same text extraction applied to a soup whose top level nodes
are the given list. -/
def getTextList (ns : List Node) : String :=
  joinSpace (((textsList ns).map pyStrip).filter (fun s => s ≠ ""))

mutual
/-- Descendant elements with the given tag name in document order,
element itself included (find_all over a whole soup). -/
def findTagsNode (t : String) : Node → List Node
  | .str _ => []
  | .elem tg i h cs =>
      (if tg = t then [Node.elem tg i h cs] else []) ++ findTagsList t cs

/-- find_all with a tag name over a node list, all descendants. -/
def findTagsList (t : String) : List Node → List Node
  | [] => []
  | n :: ns => findTagsNode t n ++ findTagsList t ns
end

/-- Tag.find_all(t) on one element: descendants only, the element
itself excluded. -/
def Node.findAllDesc (n : Node) (t : String) : List Node :=
  match n with
  | .str _ => []
  | .elem _ _ _ cs => findTagsList t cs

/-- Tag.find_all("a", href=True) on one element: hrefs of descendant
anchor elements that carry an href, in document order. -/
def Node.findAllHref (n : Node) : List String :=
  (n.findAllDesc "a").filterMap Node.hrefA

mutual
/-- str(node): serialize back to HTML text.  Attributes are not
rendered because the parser only ever tests the serialization for
emptiness. -/
def renderNode : Node → String
  | .str s => s
  | .elem t _ _ cs => "<" ++ t ++ ">" ++ renderList cs ++ "</" ++ t ++ ">"

/-- Concatenated serialization of a node list. -/
def renderList : List Node → String
  | [] => ""
  | n :: ns => renderNode n ++ renderList ns
end

/-- List level startsWith check used for the str.startswith calls of
the source. -/
def lPre : List Char → List Char → Bool
  | [], _ => true
  | _ :: _, [] => false
  | a :: as, b :: bs => a = b && lPre as bs

/-- Substring containment, the Python in operator on strings. -/
def containsSub (needle : List Char) (hay : List Char) : Bool :=
  match hay with
  | [] => needle.isEmpty
  | _ :: rest => lPre needle hay || containsSub needle rest

/-- Word constituent characters for the regex word boundary. -/
def isWordChar (c : Char) : Bool := c.isAlphanum || c = '_'

/-- Case insensitive literal match at the start of the input, returning
the rest of the input on success. -/
def ciStrip : List Char → List Char → Option (List Char)
  | [], rest => some rest
  | _ :: _, [] => none
  | l :: ls, c :: rest => if c.toLower = l.toLower then ciStrip ls rest else none

/-- Does the case insensitive word Solidity start exactly here, with a
word boundary after it? -/
def solWordAt (cs : List Char) : Bool :=
  (ciStrip "solidity".data cs).isSome &&
    (match cs.drop 8 with
     | [] => true
     | c :: _ => !(isWordChar c))

/-- Scanner for the whole word regex on Solidity with IGNORECASE
(line 77 of the source): tracks whether the previous character is a
word constituent so that the leading word boundary is honored. -/
def hasSolidityWordAux (prevIsWord : Bool) : List Char → Bool
  | [] => false
  | c :: rest =>
      ((!prevIsWord) && solWordAt (c :: rest)) ||
        hasSolidityWordAux (isWordChar c) rest

/-- re.search for the whole word Solidity, case insensitive. -/
def hasSolidityWord (cs : List Char) : Bool := hasSolidityWordAux false cs

/-- Characters of the numeral capture group class: digits, comma,
tilde. -/
def numGrpChar (c : Char) : Bool := c.isDigit || c = ',' || c = '~'

/-- One or more whitespace characters, consumed greedily; none of the
literals that follow the whitespace in the scope patterns begins with
whitespace, so the greedy run needs no backtracking. -/
def ws1 (cs : List Char) : Option (List Char) :=
  match cs with
  | [] => none
  | c :: rest => if isSpaceC c then some (rest.dropWhile isSpaceC) else none

/-- Anchored match of the contract count pattern of line 87 of the
source at the start of the input: a nonempty numeral group, mandatory
whitespace, an optional smart followed by whitespace, then contract
with optional plural s (which constrains nothing further).  Returns
the capture group.  The character classes of the group and of the
whitespace are disjoint from the first letters of the literals, so
greedy matching without further backtracking coincides with the regex
engine; the optional smart branch falls back to the bare literal
exactly as the engine does. -/
def matchContractsAt (cs : List Char) : Option (List Char) :=
  let g := cs.takeWhile numGrpChar
  if g.isEmpty then none else
  match ws1 (cs.dropWhile numGrpChar) with
  | none => none
  | some r2 =>
    let smartPath : Bool :=
      match ciStrip "smart".data r2 with
      | none => false
      | some r3 =>
        match ws1 r3 with
        | none => false
        | some r4 => (ciStrip "contract".data r4).isSome
    if smartPath || (ciStrip "contract".data r2).isSome then some g else none

/-- A sequence of case insensitive literals separated by mandatory
whitespace, matched at the start of the input. -/
def litSeq : List String → List Char → Bool
  | [], _ => true
  | [w], cs => (ciStrip w.data cs).isSome
  | w :: ws, cs =>
    match ciStrip w.data cs with
    | none => false
    | some r =>
      match ws1 r with
      | none => false
      | some r2 => litSeq ws r2

/-- Anchored match of the line count pattern of lines 92-96 of the
source: a nonempty numeral group, whitespace, then one of the four
code volume phrasings (ordered alternation as in the regex). -/
def matchLinesAt (cs : List Char) : Option (List Char) :=
  let g := cs.takeWhile numGrpChar
  if g.isEmpty then none else
  match ws1 (cs.dropWhile numGrpChar) with
  | none => none
  | some r2 =>
    if litSeq ["source", "lines"] r2 ||
       litSeq ["lines", "of", "Solidity"] r2 ||
       litSeq ["lines", "of", "Solidity", "code"] r2 ||
       litSeq ["lines", "of", "code", "written", "in", "Solidity"] r2
    then some g else none

/-- re.search driven by an anchored matcher: try every start position
from the left, first success wins. -/
def reSearch (m : List Char → Option (List Char)) : List Char → Option (List Char)
  | [] => m []
  | c :: rest =>
    match m (c :: rest) with
    | some g => some g
    | none => reSearch m rest

/-- The scope record produced by parse_scope_section. -/
structure Scope where
  repository : Option String
  contracts : Nat
  lines_solidity : Nat
deriving DecidableEq, Repr

/-- The issue record produced by the finding recognizers. -/
structure Issue where
  issue_id : String
  title : String
  severity : String
  description : String
  vulnerable_code_links : List String
deriving DecidableEq, Repr

/-- The whole report record returned by parse_code4rena_report. -/
structure Report where
  report_title : Option String
  scope : Scope
  issues : List Issue
deriving DecidableEq, Repr

/-- soup.find with tag h1 and the given id: locate the first top level
h1 whose id equals the anchor and return the list of its following
siblings, or none when the anchor is absent. -/
def findH1Tail : List Node → String → Option (List Node)
  | [], _ => none
  | n :: rest, sid =>
    if n.name = some "h1" ∧ n.idA = some sid then some rest
    else findH1Tail rest sid

/-- The sibling range of a section: everything after its anchor up to
but excluding the next h1 (the while loop of get_section_html,
lines 39-43 of the source). -/
def scopeRangeOf (rest : List Node) : List Node :=
  rest.takeWhile (fun n => !(n.name == some "h1"))

/-- Embeds get_section_html (lines 33-44): none when the anchor h1 is
missing, otherwise the concatenated serialization of the sibling range
up to the next h1. -/
def get_section_html (doc : List Node) (sectionId : String) : Option String :=
  (findH1Tail doc sectionId).map (fun rest => renderList (scopeRangeOf rest))

/-- Embeds parse_repository_link (lines 51-57): first hyperlink of the
scope soup whose target contains both the code hosting domain and the
organization marker. -/
def parse_repository_link (range : List Node) : Option String :=
  ((findTagsList "a" range).filterMap Node.hrefA).find?
    (fun h => containsSub "github.com".data h.data &&
              containsSub "code-423n4".data h.data)

/-- Flattened text of the scope section of a document, empty when the
anchor is absent. -/
def scope_text_of (doc : List Node) : String :=
  match findH1Tail doc "scope" with
  | none => ""
  | some rest => getTextList (scopeRangeOf rest)

/-- Embeds parse_scope_section (lines 60-100).  The re-parse of the
serialized section html is modelled by reading text and links directly
off the sibling range, which is the round trip BeautifulSoup performs.
Rejection (None) happens when the anchor is missing, when the section
serializes to the empty (falsy) string, and when the flattened text
lacks the whole word Solidity; otherwise the record carries the first
matching repository link and the first match results of the two
numeric patterns, normalized, with default 0. -/
def parse_scope_section (doc : List Node) : Option Scope :=
  match findH1Tail doc "scope" with
  | none => none
  | some rest =>
    let range := scopeRangeOf rest
    if renderList range = "" then none
    else
      let scope_text := getTextList range
      if hasSolidityWord scope_text.data then
        some { repository := parse_repository_link range
             , contracts :=
                 match reSearch matchContractsAt scope_text.data with
                 | some g => normalize_number (String.mk g)
                 | none => 0
             , lines_solidity :=
                 match reSearch matchLinesAt scope_text.data with
                 | some g => normalize_number (String.mk g)
                 | none => 0 }
      else none

/-- The five legal severity code letters of the heading pattern. -/
def sevLetter (c : Char) : Bool :=
  c = 'H' || c = 'M' || c = 'L' || c = 'N' || c = 'G'

/-- Anchored match of the heading pattern of line 118: an opening
bracket, one severity code letter, a dash, one or more digits, a
closing bracket.  Returns the letter and the digits. -/
def matchSevHead : List Char → Option (Char × List Char)
  | '[' :: l :: '-' :: rest =>
    if sevLetter l then
      let ds := rest.takeWhile Char.isDigit
      match rest.dropWhile Char.isDigit with
      | ']' :: _ => if ds = [] then none else some (l, ds)
      | _ => none
    else none
  | _ => none

/-- Everything after the first occurrence of the given character,
str.split with maxsplit one, second part.  Only reached by the source
when the character is present. -/
def afterFirst (c : Char) : List Char → List Char
  | [] => []
  | x :: xs => if x = c then xs else afterFirst c xs

/-- SEVERITY_MAP.get with default Info (lines 107-113). -/
def SEVERITY_MAP_get (k : String) : String :=
  if k = "H" then "High" else if k = "M" then "Medium"
  else if k = "L" then "Low" else if k = "N" then "Non-Critical"
  else if k = "G" then "Gas" else "Info"

/-- Hyperlinks below a sibling whose target contains the code hosting
domain (lines 132-134 and 209-211). -/
def githubLinksOf (n : Node) : List String :=
  n.findAllHref.filter (fun h => containsSub "github.com".data h.data)

/-- Does this sibling re-trigger the heading tagged recognizer: an h2
whose flattened text starts with the severity code pattern?  This is
the stop condition of the aggregation loop at line 128. -/
def isFormat1H2 (n : Node) : Bool :=
  n.name == some "h2" && (matchSevHead n.getText.data).isSome

/-- The aggregation loop of parse_issue_from_h2 (lines 126-135): walk
the following siblings, stopping only at an h2 that matches the
severity code pattern again; collect each nonempty flattened text and
every code hosting hyperlink. -/
def aggregate1 : List Node → List String × List String
  | [] => ([], [])
  | sib :: rest =>
    if isFormat1H2 sib then ([], [])
    else
      let p := aggregate1 rest
      ((if sib.getText ≠ "" then sib.getText :: p.1 else p.1),
       githubLinksOf sib ++ p.2)

/-- list(set(xs)) of the source, modelled as first occurrence
deduplication.  The iteration order of a Python set is unspecified;
only the membership of the result is meaningful. -/
def dedupAux (seen : List String) : List String → List String
  | [] => []
  | x :: xs =>
    if seen.contains x then dedupAux seen xs
    else x :: dedupAux (x :: seen) xs

/-- Deduplicate keeping first occurrences. -/
def dedup (xs : List String) : List String := dedupAux [] xs

/-- Embeds parse_issue_from_h2 (lines 115-143).  The tag argument is
the h2 sibling, the second argument the chain of its following
siblings (find_next_sibling repeatedly).  None unless the flattened
text of the tag starts with the severity code pattern; otherwise the
issue id is the matched tag without its brackets, the title the
stripped text after the first closing bracket, the severity the map
image of the code letter (the part of the id before the dash), and the
description and links come from the aggregation loop, links
deduplicated. -/
def parse_issue_from_h2 (tag : Node) (following : List Node) : Option Issue :=
  match matchSevHead tag.getText.data with
  | none => none
  | some (l, ds) =>
    let p := aggregate1 following
    some { issue_id := String.mk (l :: '-' :: ds)
         , title := String.mk (trimChars (afterFirst ']' tag.getText.data))
         , severity := SEVERITY_MAP_get (String.mk [l])
         , description := pyStrip (joinSpace p.1)
         , vulnerable_code_links := dedup p.2 }

/-- Anchored match of the bracket number pattern of line 200: an
opening bracket, one or more digits, a closing bracket. -/
def matchNumTag (cs : List Char) : Bool :=
  match cs with
  | '[' :: rest =>
    let ds := rest.takeWhile Char.isDigit
    match rest.dropWhile Char.isDigit with
    | ']' :: _ => ds ≠ []
    | _ => false
  | _ => false

/-- Zero padded two digit counter rendering, the 02d format of
line 215. -/
def pad2 (n : Nat) : String := if n < 10 then "0" ++ toString n else toString n

/-- The aggregation loop of the bracket numbered branch
(lines 205-212): walk the following siblings, stopping at any h2 or
h1; collect each nonempty flattened text and every code hosting
hyperlink. -/
def aggregate2 : List Node → List String × List String
  | [] => ([], [])
  | sib :: rest =>
    if sib.name == some "h2" || sib.name == some "h1" then ([], [])
    else
      let p := aggregate2 rest
      ((if sib.getText ≠ "" then sib.getText :: p.1 else p.1),
       githubLinksOf sib ++ p.2)

/-- Anchored match of the list item pattern of line 230: an opening
bracket, the letter L, a dash, one or more digits, a closing bracket.
Returns the capture group, the id without brackets. -/
def matchLMarker : List Char → Option (List Char)
  | '[' :: 'L' :: '-' :: rest =>
    let ds := rest.takeWhile Char.isDigit
    match rest.dropWhile Char.isDigit with
    | ']' :: _ => if ds = [] then none else some ('L' :: '-' :: ds)
    | _ => none
  | _ => none

/-- One list item of the legacy bullet format (lines 225-250): skipped
when it holds no anchor element; otherwise the first anchor supplies
the link text and the single hyperlink, the id comes from a leading
bracket L marker when present (no counter increment) and is otherwise
synthesized from the running counter (incremented), and the
description is the title, a period, and the text of the first emphasis
child if any, stripped.  Returns the optional issue and the updated
counter. -/
def liIssue (li : Node) (c : Nat) : Option Issue × Nat :=
  match (li.findAllDesc "a").head? with
  | none => (none, c)
  | some aTag =>
    let text := aTag.getText
    let idTitleC : String × String × Nat :=
      match matchLMarker text.data with
      | some idChars =>
          (String.mk idChars, String.mk (trimChars (afterFirst ']' text.data)), c)
      | none => ("L-" ++ pad2 c, text, c + 1)
    let author : String :=
      match (li.findAllDesc "em").head? with
      | some em => em.getText
      | none => ""
    (some { issue_id := idTitleC.1
          , title := idTitleC.2.1
          , severity := "Low"
          , description := pyStrip (idTitleC.2.1 ++ ". " ++ author)
          , vulnerable_code_links := [aTag.hrefA.getD ""] },
     idTitleC.2.2)

/-- Direct li children of a list container, find_all with
recursive=False (line 225). -/
def directLis (n : Node) : List Node :=
  match n with
  | .str _ => []
  | .elem _ _ _ cs => cs.filter (fun ch => ch.name == some "li")

/-- Fold of liIssue over the items of one list container, threading
the counter. -/
def lisIssues : List Node → Nat → List Issue × Nat
  | [], c => ([], c)
  | li :: rest, c =>
    let p := liIssue li c
    let q := lisIssues rest p.2
    (p.1.toList ++ q.1, q.2)

/-- All bullet findings of one ul sibling. -/
def ulIssues (ul : Node) (c : Nat) : List Issue × Nat :=
  lisIssues (directLis ul) c

/-- The Low and Non-Critical section walker (lines 186-252): iterate
the sibling chain until the next h1, with a counter seeded by the
caller.  An h2 matching the heading pattern is recognized by
parse_issue_from_h2, its severity forced to Low, the counter
incremented.  An h2 matching only the bracket number pattern becomes a
finding with a synthesized id from the current counter, title after
the first closing bracket, links from inside the heading (unfiltered)
plus the code hosting links of the trailing siblings up to the next h2
or h1, deduplicated; the counter is incremented.  A ul sibling yields
one finding per direct li with an anchor.  Everything else is skipped.
Returns the findings in order and the final counter. -/
def lowSectionWalk : List Node → Nat → List Issue × Nat
  | [], c => ([], c)
  | sib :: rest, c =>
    if sib.name == some "h1" then ([], c)
    else if sib.name == some "h2" then
      match parse_issue_from_h2 sib rest with
      | some iss =>
        let p := lowSectionWalk rest (c + 1)
        ({ iss with severity := "Low" } :: p.1, p.2)
      | none =>
        if matchNumTag sib.getText.data then
          let agg := aggregate2 rest
          let iss : Issue :=
            { issue_id := "L-" ++ pad2 c
            , title := String.mk (trimChars (afterFirst ']' sib.getText.data))
            , severity := "Low"
            , description := pyStrip (joinSpace agg.1)
            , vulnerable_code_links := dedup (sib.findAllHref ++ agg.2) }
          let p := lowSectionWalk rest (c + 1)
          (iss :: p.1, p.2)
        else lowSectionWalk rest c
    else if sib.name == some "ul" then
      let u := ulIssues sib c
      let p := lowSectionWalk rest u.2
      (u.1 ++ p.1, p.2)
    else lowSectionWalk rest c

/-- The High and Medium section walker (lines 172-178): iterate the
sibling chain until the next h1 and collect every h2 recognized by
parse_issue_from_h2, severity kept as the code letter dictates. -/
def hmSectionWalk : List Node → List Issue
  | [] => []
  | sib :: rest =>
    if sib.name == some "h1" then []
    else if sib.name == some "h2" then
      (parse_issue_from_h2 sib rest).toList ++ hmSectionWalk rest
    else hmSectionWalk rest

/-- Is this a top level h1 carrying an id that starts with the given
string (line 171, find_all with id=True then startswith)? -/
def isH1IdPre (pfx : String) (n : Node) : Bool :=
  match n with
  | .elem tg (some i) _ _ => decide (tg = "h1") && lPre pfx.data i.data
  | _ => false

/-- Scan the document for anchors of one High or Medium id start and
walk each matching section. -/
def hmScan (pfx : String) : List Node → List Issue
  | [] => []
  | n :: rest =>
    (if isH1IdPre pfx n then hmSectionWalk rest else []) ++ hmScan pfx rest

/-- Lowercasing of a string, str.lower. -/
def lowerS (s : String) : String := String.mk (s.data.map Char.toLower)

/-- Is this a top level h1 carrying an id whose lowercase form
contains low-risk or non-critical (lines 183-185)? -/
def isLowAnchor (n : Node) : Bool :=
  match n with
  | .elem tg (some i) _ _ =>
    decide (tg = "h1") &&
      (containsSub "low-risk".data (lowerS i).data ||
       containsSub "non-critical".data (lowerS i).data)
  | _ => false

/-- Scan the document for Low and Non-Critical anchors and walk each
matching section with a counter seeded at 1. -/
def lowScan : List Node → List Issue
  | [] => []
  | n :: rest =>
    (if isLowAnchor n then (lowSectionWalk rest 1).1 else []) ++ lowScan rest

/-- Embeds extract_all_issues (lines 162-254): all High sections in
document order, then all Medium sections, then all Low and
Non-Critical sections. -/
def extract_all_issues (doc : List Node) : List Issue :=
  hmScan "high-risk-findings" doc ++ hmScan "medium-risk-findings" doc ++
    lowScan doc

/-- First h1 of the document regardless of id (line 276). -/
def findFirstH1 : List Node → Option Node
  | [] => none
  | n :: rest => if n.name == some "h1" then some n else findFirstH1 rest

/-- Embeds parse_code4rena_report (lines 263-280) from the point where
the fetched document has been parsed: rejection of the whole document
exactly when parse_scope_section rejects, otherwise a record with the
text of the first h1 as title, the scope record, and all extracted
issues.  The HTTP fetch and the non success status skip live outside
the embedded core. -/
def parse_code4rena_report (doc : List Node) : Option Report :=
  match parse_scope_section doc with
  | none => none
  | some scope =>
    some { report_title := (findFirstH1 doc).map Node.getText
         , scope := scope
         , issues := extract_all_issues doc }

mutual
/-- Total node count of a tree, the size of the input a traversal can
visit. -/
def sizeN : Node → Nat
  | .str _ => 1
  | .elem _ _ _ cs => 1 + sizeL cs

/-- Total node count of a forest. -/
def sizeL : List Node → Nat
  | [] => 0
  | n :: ns => sizeN n + sizeL ns
end

/-! Concrete example nodes and documents used by closed statements. -/

/-- Paragraph element with one text child. -/
def pTag (s : String) : Node := Node.elem "p" none none [Node.str s]

/-- h1 heading carrying an id. -/
def h1Id (i s : String) : Node := Node.elem "h1" (some i) none [Node.str s]

/-- h1 heading without an id. -/
def h1Plain (s : String) : Node := Node.elem "h1" none none [Node.str s]

/-- h2 heading. -/
def h2Plain (s : String) : Node := Node.elem "h2" none none [Node.str s]

/-- Anchor element with an href and link text. -/
def aHref (href s : String) : Node := Node.elem "a" none (some href) [Node.str s]

/-- List item element. -/
def liTag (cs : List Node) : Node := Node.elem "li" none none cs

/-- List container element. -/
def ulTag (cs : List Node) : Node := Node.elem "ul" none none cs

/-- A High section whose only tagged finding is followed by a
paragraph, then a top level heading, then another paragraph: probes
whether the description aggregation runs past the section boundary. -/
def exDocAcrossH1 : List Node :=
  [h1Id "high-risk-findings-12" "High Risk Findings",
   h2Plain "[H-03] Reentrancy", pTag "Alpha", h1Plain "Next", pTag "Beta"]

/-- A Low section holding a bullet finding that carries its own
bracket L marker, followed by a bracket numbered h2 finding: probes
how the running counter treats marker bearing bullet findings. -/
def exDocCounter : List Node :=
  [h1Id "low-risk-and-non-critical-findings" "Low Risk",
   ulTag [liTag [aHref "https://x" "[L-05] Foo"]],
   h2Plain "[1] Bar", pTag "d"]

/-- A Non-Critical section with one bracket numbered finding. -/
def exDocBracket : List Node :=
  [h1Id "non-critical-findings" "Non-Critical", h2Plain "[1] Missing event"]

/-- A heading whose id starts with high-risk but not with
high-risk-findings, over a recognizable tagged finding. -/
def exDocShortId : List Node :=
  [h1Id "high-risk-1" "High Risk", h2Plain "[H-01] Bug", pTag "x"]

/-- A scope section mentioning Solidity with two distinct contract
count phrasings, the first value different from the second. -/
def exDocTwoCounts : List Node :=
  [h1Id "scope" "Scope",
   pTag "This Solidity audit covers 3 contracts now and 10 contracts overall"]

/-- A scope section whose text does not mention Solidity though a
contract count pattern is present. -/
def exDocNoMarker : List Node :=
  [h1Id "scope" "Scope", pTag "100 contracts of Rust"]

/-- A scope heading immediately followed by another top level heading:
the scope sibling range is empty. -/
def exDocEmptyScope : List Node :=
  [h1Id "scope" "Scope", h1Plain "Other"]

/-- The heading tagged finding of the spec example. -/
def exH03 : Node := h2Plain "[H-03] Reentrancy in withdraw()"

/-- Two paragraph siblings followed by the next tagged finding. -/
def exH03Rest : List Node :=
  [pTag "First paragraph.", pTag "Second paragraph.", h2Plain "[H-04] Other issue"]

/-- A bullet item with exactly one hyperlink and no emphasis child. -/
def exLi : Node := liTag [aHref "https://github.com/x" "Fix this"]

/-- The issue record the heading tagged recognizer produces on the
spec example. -/
def exH03Issue : Issue :=
  { issue_id := "H-03", title := "Reentrancy in withdraw()"
  , severity := "High"
  , description := "First paragraph. Second paragraph."
  , vulnerable_code_links := [] }

/-- The issue record the bracket numbered recognizer produces on the
first finding of a Non-Critical section. -/
def exBracketIssue : Issue :=
  { issue_id := "L-01", title := "Missing event", severity := "Low"
  , description := "", vulnerable_code_links := [] }

/-- Reference increment contribution of one bullet item, written from
the amended counter policy: a bullet finding increments the running
counter exactly when its id has to be synthesized, that is when its
anchor text carries no bracket L marker; items without an anchor
contribute nothing. -/
def liIncr (li : Node) : Nat :=
  match (li.findAllDesc "a").head? with
  | none => 0
  | some a =>
    match matchLMarker a.getText.data with
    | some _ => 0
    | none => 1

/-- Reference increment count of a Low or Non-Critical sibling chain,
written from the amended counter policy and independent of any counter
value: one per heading tagged finding, one per bracket numbered
finding, and liIncr per bullet item; the chain ends at the next top
level heading. -/
def countIncr : List Node → Nat
  | [] => 0
  | sib :: rest =>
    if sib.name == some "h1" then 0
    else if sib.name == some "h2" then
      (if (parse_issue_from_h2 sib rest).isSome then 1
       else if matchNumTag sib.getText.data then 1 else 0) + countIncr rest
    else if sib.name == some "ul" then
      ((directLis sib).map liIncr).sum + countIncr rest
    else countIncr rest

/-! Theorems. -/

/-- Claim C6: the numeric normalizer is total by construction, strips
every character that is not a decimal digit, parses the remainder in
base 10, yields 0 on an empty remainder (digitsVal of the empty list),
and satisfies the four quoted evaluations. -/
theorem claim_C6_normalizer :
    (∀ s : String,
        normalize_number s = digitsVal (s.data.filter (fun c => c.isDigit)))
    ∧ digitsVal [] = 0
    ∧ normalize_number "1,234" = 1234
    ∧ normalize_number "~500" = 500
    ∧ normalize_number "" = 0
    ∧ normalize_number "12 contracts" = 12 := by
  refine ⟨fun s => ?_, rfl, by decide, by decide, by decide, by decide⟩
  unfold normalize_number
  by_cases h : s.data.filter (fun c => c.isDigit) = ([] : List Char)
  · simp [h, digitsVal]
  · simp [h]

/-- Claim C3: whenever the scope anchor is absent, or present with a
section text that lacks the whole word Solidity, the whole document is
rejected: parse_code4rena_report returns none, so no partial record
with a scope or issues exists. -/
theorem claim_C3_rejection :
    ∀ doc : List Node,
      (∀ rest, findH1Tail doc "scope" = some rest →
        hasSolidityWord (getTextList (scopeRangeOf rest)).data = false) →
      parse_code4rena_report doc = none := by
  intro doc h
  unfold parse_code4rena_report parse_scope_section
  cases hf : findH1Tail doc "scope" with
  | none => rfl
  | some rest =>
    have hw := h rest hf
    by_cases hr : renderList (scopeRangeOf rest) = ""
    · simp [hr]
    · simp [hr, hw]

/-- Witness for claim C3 at a concrete document whose scope text reads
100 contracts of Rust: the marker test is false and extraction rejects. -/
theorem claim_C3_rejection_witness :
    parse_code4rena_report exDocNoMarker = none := by
  apply claim_C3_rejection
  intro rest h
  rw [show findH1Tail exDocNoMarker "scope" = some [pTag "100 contracts of Rust"]
        from rfl] at h
  cases h
  decide

/-- Claim C10: a document whose scope anchor exists but whose sibling
range serializes to the empty string is rejected, exactly as a
document with no scope anchor at all is: both yield none from
parse_code4rena_report, so at the public interface the two are
indistinguishable. -/
theorem claim_C10_empty_scope :
    (∀ doc : List Node, get_section_html doc "scope" = some "" →
        parse_code4rena_report doc = none)
    ∧ (∀ doc : List Node, get_section_html doc "scope" = none →
        parse_code4rena_report doc = none) := by
  constructor
  · intro doc h
    unfold get_section_html at h
    rw [Option.map_eq_some'] at h
    obtain ⟨rest, hf, hr⟩ := h
    unfold parse_code4rena_report parse_scope_section
    rw [hf]
    simp [hr]
  · intro doc h
    unfold get_section_html at h
    rw [Option.map_eq_none'] at h
    unfold parse_code4rena_report parse_scope_section
    rw [h]

/-- Witness for claim C10: a scope heading immediately followed by
another top level heading serializes to the empty string and the
document is rejected. -/
theorem claim_C10_empty_scope_witness :
    get_section_html exDocEmptyScope "scope" = some ""
    ∧ parse_code4rena_report exDocEmptyScope = none :=
  ⟨rfl, claim_C10_empty_scope.1 exDocEmptyScope rfl⟩

/-- Counterexample to claim C1: in the document exDocAcrossH1 the
heading tagged finding is followed by a paragraph Alpha, then a top
level heading with text Next, then a paragraph Beta.  The claim says
the aggregation stops at a top level heading without consuming it, so
the description should be Alpha; the code only stops at an h2 that
matches the severity code pattern again, and produces Alpha Next Beta. -/
theorem claim_C1_counterexample :
    (extract_all_issues exDocAcrossH1).map Issue.description = ["Alpha Next Beta"]
    ∧ ("Alpha Next Beta" : String) ≠ "Alpha" := by
  exact ⟨rfl, by decide⟩

/-- Counterexample to claim C2: in the Low section of exDocCounter the
first recognized finding is a bullet item carrying the literal marker
L-05, the second a bracket numbered h2.  The claim says the counter is
incremented once per recognized finding of any format, which would
give the synthesized finding the id L-02 (one plus the one finding
already recognized); the code does not increment the counter for
marker bearing bullet findings and emits L-01. -/
theorem claim_C2_counterexample :
    (extract_all_issues exDocCounter).map Issue.issue_id = ["L-05", "L-01"]
    ∧ ("L-01" : String) ≠ "L-02" := by
  exact ⟨rfl, by decide⟩

/-- Counterexample to claim C5: the id high-risk-1 matches the
identifier pattern high-risk star claimed for High sections, and its
section holds a finding that the heading tagged recognizer accepts,
yet extraction returns no issues at all, because the code requires the
id to start with the longer string high-risk-findings. -/
theorem claim_C5_counterexample :
    lPre "high-risk".data "high-risk-1".data = true
    ∧ (parse_issue_from_h2 (h2Plain "[H-01] Bug") [pTag "x"]).isSome = true
    ∧ extract_all_issues exDocShortId = [] := by
  exact ⟨by decide, rfl, rfl⟩

/-- Helper: a leftmost search that fails at every start position
returns none. -/
theorem reSearch_eq_none (m : List Char → Option (List Char)) :
    ∀ cs : List Char, (∀ k, m (cs.drop k) = none) → reSearch m cs = none := by
  intro cs
  induction cs with
  | nil => intro h; simpa [reSearch] using h 0
  | cons c rest ih =>
    intro h
    have h0 : m (c :: rest) = none := by simpa using h 0
    unfold reSearch
    rw [h0]
    exact ih (fun k => by simpa using h (k + 1))

/-- Helper: the leftmost search returns the match of the first start
position at which the anchored matcher succeeds. -/
theorem reSearch_first (m : List Char → Option (List Char)) :
    ∀ (j : Nat) (cs : List Char) (g : List Char),
      (∀ k, k < j → m (cs.drop k) = none) → m (cs.drop j) = some g →
      reSearch m cs = some g := by
  intro j
  induction j with
  | zero =>
    intro cs g _ hj
    rw [List.drop_zero] at hj
    cases cs with
    | nil => simpa [reSearch] using hj
    | cons c rest => unfold reSearch; rw [hj]
  | succ j ih =>
    intro cs g hk hj
    cases cs with
    | nil =>
      have h0 : m [] = none := by simpa using hk 0 (Nat.succ_pos j)
      rw [List.drop_nil] at hj
      rw [h0] at hj
      cases hj
    | cons c rest =>
      have h0 : m (c :: rest) = none := by simpa using hk 0 (Nat.succ_pos j)
      unfold reSearch
      rw [h0]
      exact ih rest g
        (fun k hklt => by simpa using hk (k + 1) (Nat.succ_lt_succ hklt))
        (by simpa using hj)

/-- Claim C7: the two scope numeric extractions are first match wins:
the search result is the anchored match of the earliest succeeding
start position, never a later one; the scope record fields are exactly
the normalized search results with default 0; and on the concrete
scope text with the phrasings 3 contracts and then 10 contracts the
extracted count is 3, the first occurrence, not the second or the
maximum. -/
theorem claim_C7_first_match :
    (∀ (cs : List Char) (j : Nat) (g : List Char),
        (∀ k, k < j → matchContractsAt (cs.drop k) = none) →
        matchContractsAt (cs.drop j) = some g →
        reSearch matchContractsAt cs = some g)
    ∧ (∀ (cs : List Char) (j : Nat) (g : List Char),
        (∀ k, k < j → matchLinesAt (cs.drop k) = none) →
        matchLinesAt (cs.drop j) = some g →
        reSearch matchLinesAt cs = some g)
    ∧ (∀ cs : List Char, (∀ k, matchContractsAt (cs.drop k) = none) →
        reSearch matchContractsAt cs = none)
    ∧ (∀ (doc : List Node) (sc : Scope), parse_scope_section doc = some sc →
        sc.contracts =
          (match reSearch matchContractsAt (scope_text_of doc).data with
           | some g => normalize_number (String.mk g)
           | none => 0)
        ∧ sc.lines_solidity =
          (match reSearch matchLinesAt (scope_text_of doc).data with
           | some g => normalize_number (String.mk g)
           | none => 0))
    ∧ parse_scope_section exDocTwoCounts =
        some { repository := none, contracts := 3, lines_solidity := 0 }
    ∧ (3 : Nat) ≠ 10 := by
  refine ⟨fun cs j g => reSearch_first matchContractsAt j cs g,
          fun cs j g => reSearch_first matchLinesAt j cs g,
          reSearch_eq_none matchContractsAt,
          ?_, by decide, by decide⟩
  intro doc sc h
  unfold parse_scope_section at h
  unfold scope_text_of
  cases hf : findH1Tail doc "scope" with
  | none => rw [hf] at h; cases h
  | some rest =>
    rw [hf] at h
    by_cases hr : renderList (scopeRangeOf rest) = ""
    · simp [hr] at h
    · by_cases hw : hasSolidityWord (getTextList (scopeRangeOf rest)).data
      · simp only [hr, if_neg hr, hw, if_pos hw] at h
        cases h
        exact ⟨rfl, rfl⟩
      · simp [hr, hw] at h

/-- Witness for claim C7: on the text a 3 contracts the anchored
matcher fails at positions 0 and 1 and succeeds at position 2, and the
search indeed returns that first match. -/
theorem claim_C7_first_match_witness :
    (∀ k, k < 2 → matchContractsAt (("a 3 contracts".data).drop k) = none)
    ∧ reSearch matchContractsAt ("a 3 contracts".data) = some ['3'] :=
  ⟨by decide,
   claim_C7_first_match.1 "a 3 contracts".data 2 ['3'] (by decide) (by decide)⟩

/-- Helper: the aggregation loop of the heading tagged recognizer
consumes exactly the prefix of its input before the first sibling that
re-triggers the heading tagged pattern, and returns the nonempty
flattened texts and the code hosting links of that prefix. -/
theorem aggregate1_takeWhile :
    ∀ sibs : List Node,
      aggregate1 sibs =
        (((sibs.takeWhile (fun n => !isFormat1H2 n)).map Node.getText).filter
            (fun t => t ≠ ""),
         ((sibs.takeWhile (fun n => !isFormat1H2 n)).map githubLinksOf).flatten) := by
  intro sibs
  induction sibs with
  | nil => rfl
  | cons sib rest ih =>
    by_cases h : isFormat1H2 sib
    · simp [aggregate1, h]
    · simp only [aggregate1, h, List.takeWhile_cons, Bool.not_false, if_true,
        Bool.not_true, List.map_cons, List.flatten, ih]
      by_cases ht : sib.getText = ""
      · simp [ht]
      · simp [ht]

/-- Claim C1 as amended: for every recognized heading tagged finding,
the description is the stripped single space join of the nonempty
flattened texts of the following siblings up to, and not including,
the first sibling that itself re-triggers the heading tagged pattern
(an h2 whose text starts with a bracketed severity code); the links
are the deduplicated code hosting hyperlinks of that same prefix.
Unlike the original claim, the aggregation does not stop at a bracket
numbered h2 nor at a top level heading.  The quoted example holds: the
H-03 heading followed by two paragraphs and an H-04 heading yields one
record with id H-03, severity High, and the two paragraphs joined by a
space. -/
theorem claim_C1_amended :
    (∀ (tag : Node) (rest : List Node) (iss : Issue),
        parse_issue_from_h2 tag rest = some iss →
        iss.description =
          pyStrip (joinSpace
            (((rest.takeWhile (fun n => !isFormat1H2 n)).map Node.getText).filter
              (fun t => t ≠ "")))
        ∧ iss.vulnerable_code_links =
            dedup (((rest.takeWhile (fun n => !isFormat1H2 n)).map
              githubLinksOf).flatten))
    ∧ parse_issue_from_h2 exH03 exH03Rest = some exH03Issue := by
  constructor
  · intro tag rest iss h
    unfold parse_issue_from_h2 at h
    cases hm : matchSevHead tag.getText.data with
    | none => rw [hm] at h; cases h
    | some q =>
      obtain ⟨l, ds⟩ := q
      rw [hm] at h
      simp only [Option.some.injEq] at h
      rw [← h]
      rw [aggregate1_takeWhile rest]
      exact ⟨rfl, rfl⟩
  · rfl

/-- Witness for the amended claim C1, at the spec example. -/
theorem claim_C1_amended_witness :
    parse_issue_from_h2 exH03 exH03Rest = some exH03Issue
    ∧ exH03Issue.description =
        pyStrip (joinSpace (((exH03Rest.takeWhile (fun n => !isFormat1H2 n)).map
          Node.getText).filter (fun t => t ≠ ""))) :=
  ⟨rfl, (claim_C1_amended.1 exH03 exH03Rest exH03Issue rfl).1⟩

/-- Helper: the shape of a recognized heading tagged issue: its id is
the code letter, a dash, the digits, and its severity is the severity
map image of the letter. -/
theorem parse_issue_shape :
    ∀ (tag : Node) (rest : List Node) (iss : Issue),
      parse_issue_from_h2 tag rest = some iss →
      ∃ l ds, matchSevHead tag.getText.data = some (l, ds)
        ∧ iss.issue_id = String.mk (l :: '-' :: ds)
        ∧ iss.severity = SEVERITY_MAP_get (String.mk [l]) := by
  intro tag rest iss h
  unfold parse_issue_from_h2 at h
  cases hm : matchSevHead tag.getText.data with
  | none => rw [hm] at h; cases h
  | some q =>
    obtain ⟨l, ds⟩ := q
    rw [hm] at h
    simp only [Option.some.injEq] at h
    exact ⟨l, ds, rfl, by rw [← h], by rw [← h]⟩

/-- Helper: every bullet finding of a list container carries severity
Low. -/
theorem lisIssues_low :
    ∀ (lis : List Node) (c : Nat) (iss : Issue),
      iss ∈ (lisIssues lis c).1 → iss.severity = "Low" := by
  intro lis
  induction lis with
  | nil => intro c iss h; cases h
  | cons li rest ih =>
    intro c iss h
    simp only [lisIssues] at h
    rw [List.mem_append] at h
    cases h with
    | inl h1 =>
      unfold liIssue at h1
      cases hf : (li.findAllDesc "a").head? with
      | none => rw [hf] at h1; cases h1
      | some aTag =>
        rw [hf] at h1
        simp only [Option.toList_some, List.mem_singleton] at h1
        rw [h1]
    | inr h2 => exact ih _ iss h2

/-- Helper: every finding recognized inside a Low or Non-Critical
section walk carries severity Low, whatever its per finding tag
said. -/
theorem lowSectionWalk_low :
    ∀ (sibs : List Node) (c : Nat) (iss : Issue),
      iss ∈ (lowSectionWalk sibs c).1 → iss.severity = "Low" := by
  intro sibs
  induction sibs with
  | nil => intro c iss h; cases h
  | cons sib rest ih =>
    intro c iss h
    simp only [lowSectionWalk] at h
    by_cases h1 : sib.name == some "h1"
    · rw [if_pos h1] at h; cases h
    · rw [if_neg h1] at h
      by_cases h2 : sib.name == some "h2"
      · rw [if_pos h2] at h
        cases hp : parse_issue_from_h2 sib rest with
        | some iss0 =>
          rw [hp] at h
          rcases List.mem_cons.mp h with h3 | h3
          · rw [h3]
          · exact ih _ iss h3
        | none =>
          rw [hp] at h
          by_cases h4 : matchNumTag sib.getText.data
          · rw [if_pos h4] at h
            rcases List.mem_cons.mp h with h3 | h3
            · rw [h3]
            · exact ih _ iss h3
          · rw [if_neg h4] at h
            exact ih _ iss h
      · rw [if_neg h2] at h
        by_cases h5 : sib.name == some "ul"
        · rw [if_pos h5] at h
          rcases List.mem_append.mp h with h3 | h3
          · exact lisIssues_low _ _ iss h3
          · exact ih _ iss h3
        · rw [if_neg h5] at h
          exact ih _ iss h

/-- Helper: every finding of a High or Medium section walk keeps the
severity dictated by the code letter of its heading tag. -/
theorem hmSectionWalk_sev :
    ∀ (sibs : List Node) (iss : Issue), iss ∈ hmSectionWalk sibs →
      ∃ l ds, iss.issue_id = String.mk (l :: '-' :: ds)
        ∧ iss.severity = SEVERITY_MAP_get (String.mk [l]) := by
  intro sibs
  induction sibs with
  | nil => intro iss h; cases h
  | cons sib rest ih =>
    intro iss h
    simp only [hmSectionWalk] at h
    by_cases h1 : sib.name == some "h1"
    · rw [if_pos h1] at h; cases h
    · rw [if_neg h1] at h
      by_cases h2 : sib.name == some "h2"
      · rw [if_pos h2] at h
        rcases List.mem_append.mp h with h3 | h3
        · cases hp : parse_issue_from_h2 sib rest with
          | none => rw [hp] at h3; cases h3
          | some iss0 =>
            rw [hp] at h3
            simp only [Option.toList_some, List.mem_singleton] at h3
            obtain ⟨l, ds, -, hid, hsev⟩ := parse_issue_shape sib rest iss0 hp
            rw [h3]
            exact ⟨l, ds, hid, hsev⟩
        · exact ih iss h3
      · rw [if_neg h2] at h
        exact ih iss h

/-- Claim C4: inside a section whose heading id contains low-risk or
non-critical every recognized finding is assigned severity Low,
whatever its own tag says; a bracket numbered finding that is the
first recognized finding of its section receives the synthesized id
L-01 (concrete conjunct); and High or Medium section walks keep the
severity the heading tagged code letter declares through the severity
map. -/
theorem claim_C4_severity_override :
    (∀ (sibs : List Node) (c : Nat) (iss : Issue),
        iss ∈ (lowSectionWalk sibs c).1 → iss.severity = "Low")
    ∧ (∀ (sibs : List Node) (iss : Issue), iss ∈ hmSectionWalk sibs →
        ∃ l ds, iss.issue_id = String.mk (l :: '-' :: ds)
          ∧ iss.severity = SEVERITY_MAP_get (String.mk [l]))
    ∧ extract_all_issues exDocBracket = [exBracketIssue] :=
  ⟨lowSectionWalk_low, hmSectionWalk_sev, rfl⟩

/-- Witness for claim C4: the bracket numbered finding of the concrete
Non-Critical section is in the walk result and the theorem yields its
severity Low. -/
theorem claim_C4_severity_override_witness :
    exBracketIssue ∈ (lowSectionWalk [h2Plain "[1] Missing event"] 1).1
    ∧ exBracketIssue.severity = "Low" :=
  ⟨by decide,
   claim_C4_severity_override.1 [h2Plain "[1] Missing event"] 1 exBracketIssue
     (by decide)⟩

/-- Helper: a document without any h1 whose id starts with the given
string produces no High or Medium findings for that anchor. -/
theorem hmScan_nil :
    ∀ (pfx : String) (sibs : List Node),
      (∀ n ∈ sibs, isH1IdPre pfx n = false) → hmScan pfx sibs = [] := by
  intro pfx sibs
  induction sibs with
  | nil => intro _; rfl
  | cons n rest ih =>
    intro h
    simp only [hmScan, h n (List.mem_cons_self n rest)]
    simp only [Bool.false_eq_true, if_false, List.nil_append]
    exact ih (fun m hm => h m (List.mem_cons_of_mem n hm))

/-- Helper: a document without any Low or Non-Critical anchor produces
no Low findings. -/
theorem lowScan_nil :
    ∀ sibs : List Node,
      (∀ n ∈ sibs, isLowAnchor n = false) → lowScan sibs = [] := by
  intro sibs
  induction sibs with
  | nil => intro _; rfl
  | cons n rest ih =>
    intro h
    simp only [lowScan, h n (List.mem_cons_self n rest)]
    simp only [Bool.false_eq_true, if_false, List.nil_append]
    exact ih (fun m hm => h m (List.mem_cons_of_mem n hm))

/-- Claim C5 as amended: absent anchors yield zero findings rather
than an error (first two conjuncts), and on a document made of one
top level heading followed by anchor free siblings, the heading is
walked as a High or Medium section exactly when its id starts with
high-risk-findings or medium-risk-findings (identifier start match on
the full literals, not on high-risk or medium-risk alone, which the
counterexample refutes), and as a Low or Non-Critical section exactly
when its lowercased id contains low-risk or non-critical. -/
theorem claim_C5_amended :
    (∀ (pfx : String) (sibs : List Node),
        (∀ n ∈ sibs, isH1IdPre pfx n = false) → hmScan pfx sibs = [])
    ∧ (∀ sibs : List Node,
        (∀ n ∈ sibs, isLowAnchor n = false) → lowScan sibs = [])
    ∧ (∀ (i : String) (hr : Option String) (ch sibs : List Node),
        (∀ n ∈ sibs, isH1IdPre "high-risk-findings" n = false
          ∧ isH1IdPre "medium-risk-findings" n = false
          ∧ isLowAnchor n = false) →
        extract_all_issues (Node.elem "h1" (some i) hr ch :: sibs) =
          (if lPre "high-risk-findings".data i.data then hmSectionWalk sibs
           else [])
          ++ (if lPre "medium-risk-findings".data i.data then hmSectionWalk sibs
              else [])
          ++ (if containsSub "low-risk".data (lowerS i).data ||
                 containsSub "non-critical".data (lowerS i).data then
                (lowSectionWalk sibs 1).1
              else [])) := by
  refine ⟨hmScan_nil, lowScan_nil, ?_⟩
  intro i hr ch sibs h
  unfold extract_all_issues
  simp only [hmScan, lowScan, isH1IdPre, isLowAnchor]
  rw [hmScan_nil _ sibs (fun m hm => (h m hm).1),
      hmScan_nil _ sibs (fun m hm => (h m hm).2.1),
      lowScan_nil sibs (fun m hm => (h m hm).2.2)]
  simp

/-- Witness for the amended claim C5 at a concrete one section
document with a Non-Critical id. -/
theorem claim_C5_amended_witness :
    (∀ n ∈ ([h2Plain "[1] T"] : List Node),
        isH1IdPre "high-risk-findings" n = false
          ∧ isH1IdPre "medium-risk-findings" n = false
          ∧ isLowAnchor n = false)
    ∧ extract_all_issues
        (Node.elem "h1" (some "non-critical-issues") none [] ::
          [h2Plain "[1] T"]) =
        (if lPre "high-risk-findings".data "non-critical-issues".data then
           hmSectionWalk [h2Plain "[1] T"] else [])
        ++ (if lPre "medium-risk-findings".data "non-critical-issues".data then
              hmSectionWalk [h2Plain "[1] T"] else [])
        ++ (if containsSub "low-risk".data (lowerS "non-critical-issues").data ||
               containsSub "non-critical".data
                 (lowerS "non-critical-issues").data then
              (lowSectionWalk [h2Plain "[1] T"] 1).1
            else []) :=
  ⟨by decide,
   claim_C5_amended.2.2 "non-critical-issues" none [] [h2Plain "[1] T"]
     (by decide)⟩

/-- Helper: one bullet item advances the counter by its reference
increment. -/
theorem liIssue_counter :
    ∀ (li : Node) (c : Nat), (liIssue li c).2 = c + liIncr li := by
  intro li c
  unfold liIssue liIncr
  cases hf : (li.findAllDesc "a").head? with
  | none => rfl
  | some a =>
    dsimp only
    cases hm : matchLMarker a.getText.data with
    | none => rfl
    | some idc => rfl

/-- Helper: a run of bullet items advances the counter by the sum of
their reference increments. -/
theorem lisIssues_counter :
    ∀ (lis : List Node) (c : Nat),
      (lisIssues lis c).2 = c + ((lis.map liIncr).sum) := by
  intro lis
  induction lis with
  | nil => intro c; rfl
  | cons li rest ih =>
    intro c
    simp only [lisIssues, List.map_cons, List.sum_cons]
    rw [liIssue_counter li c, ih]
    omega

/-- Helper: the final counter of a Low section walk is the seed plus
the reference increment count of the chain. -/
theorem lowSectionWalk_counter :
    ∀ (sibs : List Node) (c : Nat),
      (lowSectionWalk sibs c).2 = c + countIncr sibs := by
  intro sibs
  induction sibs with
  | nil => intro c; rfl
  | cons sib rest ih =>
    intro c
    simp only [lowSectionWalk, countIncr]
    by_cases h1 : sib.name == some "h1"
    · simp [h1]
    · simp only [h1, Bool.false_eq_true, if_false]
      by_cases h2 : sib.name == some "h2"
      · simp only [h2, if_true]
        cases hp : parse_issue_from_h2 sib rest with
        | some iss0 =>
          simp only [Option.isSome_some, if_true]
          rw [ih]
          omega
        | none =>
          simp only [Option.isSome_none, Bool.false_eq_true, if_false]
          by_cases h4 : matchNumTag sib.getText.data
          · simp only [h4, if_true]
            rw [ih]
            omega
          · simp only [h4, Bool.false_eq_true, if_false]
            rw [ih]
            omega
      · simp only [h2, Bool.false_eq_true, if_false]
        by_cases h5 : sib.name == some "ul"
        · simp only [h5, if_true, ulIssues]
          rw [lisIssues_counter, ih]
          omega
        · simp only [h5, Bool.false_eq_true, if_false]
          exact ih c

/-- Claim C2 as amended: the Low section counter advances exactly by
the amended policy count (one per heading tagged or bracket numbered
finding, one per bullet finding whose id is synthesized, none for a
bullet finding with its own marker), a bracket numbered finding
receives id L followed by the current counter value zero padded, and
bullet findings synthesize from the current counter exactly when the
marker is absent. -/
theorem claim_C2_amended :
    (∀ (sibs : List Node) (c : Nat),
        (lowSectionWalk sibs c).2 = c + countIncr sibs)
    ∧ (∀ (sib : Node) (rest : List Node) (c : Nat),
        sib.name = some "h2" → parse_issue_from_h2 sib rest = none →
        matchNumTag sib.getText.data = true →
        ((lowSectionWalk (sib :: rest) c).1.head?).map Issue.issue_id =
          some ("L-" ++ pad2 c))
    ∧ (∀ (li : Node) (c : Nat) (a : Node),
        (li.findAllDesc "a").head? = some a →
        matchLMarker a.getText.data = none →
        ((liIssue li c).1).map Issue.issue_id = some ("L-" ++ pad2 c)
          ∧ (liIssue li c).2 = c + 1)
    ∧ (∀ (li : Node) (c : Nat) (a : Node) (idc : List Char),
        (li.findAllDesc "a").head? = some a →
        matchLMarker a.getText.data = some idc →
        ((liIssue li c).1).map Issue.issue_id = some (String.mk idc)
          ∧ (liIssue li c).2 = c) := by
  refine ⟨lowSectionWalk_counter, ?_, ?_, ?_⟩
  · intro sib rest c hn hp hm
    have h1 : (sib.name == some "h1") = false := by simp [hn]
    have h2 : (sib.name == some "h2") = true := by simp [hn]
    simp only [lowSectionWalk, h1, h2, hp, hm, Bool.false_eq_true, if_false,
      if_true, List.head?_cons, Option.map_some]
    rfl
  · intro li c a hf hm
    unfold liIssue
    rw [hf]
    dsimp only
    rw [hm]
    exact ⟨rfl, rfl⟩
  · intro li c a idc hf hm
    unfold liIssue
    rw [hf]
    dsimp only
    rw [hm]
    exact ⟨rfl, rfl⟩

/-- Witness for the amended claim C2: the bracket numbered finding of
the concrete chain is synthesized at the seed counter 1 and yields
L-01. -/
theorem claim_C2_amended_witness :
    parse_issue_from_h2 (h2Plain "[1] Bar") [pTag "d"] = none
    ∧ matchNumTag (h2Plain "[1] Bar").getText.data = true
    ∧ ((lowSectionWalk (h2Plain "[1] Bar" :: [pTag "d"]) 1).1.head?).map
        Issue.issue_id = some ("L-" ++ pad2 1) :=
  ⟨rfl, by decide,
   claim_C2_amended.2.1 (h2Plain "[1] Bar") [pTag "d"] 1 rfl rfl (by decide)⟩

/-- Helper: the head of a dropWhile result does not satisfy the
predicate. -/
theorem dropWhile_head_not {p : Char → Bool} :
    ∀ (xs : List Char) (c : Char), (xs.dropWhile p).head? = some c → p c = false := by
  intro xs
  induction xs with
  | nil => intro c h; cases h
  | cons x xs ih =>
    intro c h
    by_cases hp : p x
    · rw [List.dropWhile_cons_of_pos hp] at h
      exact ih c h
    · rw [List.dropWhile_cons_of_neg hp] at h
      rw [List.head?_cons, Option.some.injEq] at h
      rw [← h]
      exact Bool.not_eq_true _ ▸ (by simpa using hp)

/-- Helper: dropWhile keeps a suffix of its input. -/
theorem dropWhile_is_suffix {p : Char → Bool} :
    ∀ xs : List Char, ∃ w, xs = w ++ xs.dropWhile p := by
  intro xs
  induction xs with
  | nil => exact ⟨[], rfl⟩
  | cons x xs ih =>
    by_cases hp : p x
    · obtain ⟨w, hw⟩ := ih
      refine ⟨x :: w, ?_⟩
      rw [List.dropWhile_cons_of_pos hp, List.cons_append, ← hw]
    · exact ⟨[], by rw [List.dropWhile_cons_of_neg hp]; rfl⟩

/-- Helper: a stripped character list never starts with whitespace. -/
theorem trimChars_head_not_space :
    ∀ (cs : List Char) (c : Char),
      (trimChars cs).head? = some c → isSpaceC c = false := by
  intro cs c h
  unfold trimChars at h
  obtain ⟨w, hw⟩ :=
    dropWhile_is_suffix (p := isSpaceC) ((cs.dropWhile isSpaceC).reverse)
  have hv : cs.dropWhile isSpaceC =
      (((cs.dropWhile isSpaceC).reverse.dropWhile isSpaceC).reverse) ++ w.reverse := by
    have h2 := congrArg List.reverse hw
    rw [List.reverse_reverse, List.reverse_append] at h2
    exact h2
  have hne : ((cs.dropWhile isSpaceC).reverse.dropWhile isSpaceC).reverse ≠ [] := by
    intro h0
    rw [h0] at h
    cases h
  have h3 : (cs.dropWhile isSpaceC).head? = some c := by
    rw [hv, List.head?_append_of_ne_nil _ hne]
    exact h
  exact dropWhile_head_not cs c h3

/-- Helper: the single space join starting from a nonempty fragment
starts with that fragment's head. -/
theorem joinSp_head :
    ∀ (x : List Char) (xs : List (List Char)),
      x ≠ [] → (joinSp (x :: xs)).head? = x.head? := by
  intro x xs hx
  cases xs with
  | nil => rfl
  | cons y rest =>
    show (x ++ ' ' :: joinSp (y :: rest)).head? = x.head?
    exact List.head?_append_of_ne_nil x hx

/-- Helper: flattened node text never starts with whitespace. -/
theorem getText_head_not_space :
    ∀ (n : Node) (c : Char),
      (Node.getText n).data.head? = some c → isSpaceC c = false := by
  intro n c h
  unfold Node.getText joinSpace at h
  cases hp : ((textsNode n).map pyStrip).filter (fun s => s ≠ "") with
  | nil => rw [hp] at h; cases h
  | cons p ps =>
    rw [hp] at h
    have hmem : p ∈ ((textsNode n).map pyStrip).filter (fun s => s ≠ "") := by
      rw [hp]; exact List.mem_cons_self p ps
    have hne : p ≠ "" := by
      have := (List.mem_filter.mp hmem).2
      simpa using this
    have himg : ∃ t, pyStrip t = p := by
      obtain ⟨t, -, ht⟩ := List.mem_map.mp (List.mem_filter.mp hmem).1
      exact ⟨t, ht⟩
    obtain ⟨t, ht⟩ := himg
    have hdne : p.data ≠ [] := by
      intro h0
      exact hne (by cases p; cases h0; rfl)
    have hh : (joinSp (p.data :: ps.map String.data)).head? = p.data.head? :=
      joinSp_head p.data (ps.map String.data) hdne
    rw [List.map_cons] at h
    rw [hh] at h
    have : (trimChars t.data).head? = some c := by
      rw [← ht] at h
      exact h
    exact trimChars_head_not_space t.data c this

/-- Helper: appending dot space and stripping equals appending dot and
stripping: the trailing space is always removed. -/
theorem dropWhile_dot_space (cs : List Char) :
    (cs ++ ['.', ' ']).dropWhile isSpaceC =
      ((cs ++ ['.']).dropWhile isSpaceC) ++ [' '] := by
  induction cs with
  | nil => rfl
  | cons x xs ih =>
    by_cases hp : isSpaceC x
    · rw [List.cons_append, List.dropWhile_cons_of_pos hp,
        List.cons_append, List.dropWhile_cons_of_pos hp]
      exact ih
    · rw [List.cons_append, List.dropWhile_cons_of_neg hp,
        List.cons_append, List.dropWhile_cons_of_neg hp]
      simp

/-- Helper: stripping text dot space equals stripping text dot. -/
theorem trim_dot_space (t : List Char) :
    trimChars (t ++ ['.', ' ']) = trimChars (t ++ ['.']) := by
  unfold trimChars
  rw [dropWhile_dot_space t, List.reverse_append]
  show (((' ' :: ((t ++ ['.']).dropWhile isSpaceC).reverse)).dropWhile
    isSpaceC).reverse = _
  rw [List.dropWhile_cons_of_pos (by decide)]

/-- Helper: a text with no leading whitespace followed by a dot is
strip invariant. -/
theorem trim_dot (t : List Char) :
    (∀ c, t.head? = some c → isSpaceC c = false) →
    trimChars (t ++ ['.']) = t ++ ['.'] := by
  intro h
  unfold trimChars
  have h1 : (t ++ ['.']).dropWhile isSpaceC = t ++ ['.'] := by
    cases t with
    | nil => rfl
    | cons c cs =>
      rw [List.cons_append, List.dropWhile_cons_of_neg]
      simp [h c rfl]
  rw [h1, List.reverse_append]
  show ((('.' :: t.reverse)).dropWhile isSpaceC).reverse = _
  rw [List.dropWhile_cons_of_neg (by decide)]
  rw [List.reverse_cons, List.reverse_reverse]

/-- Helper: appending a period and a space to a title with no leading
whitespace, then stripping, appends just the period. -/
theorem pyStrip_title_dot (t : String) :
    (∀ c, t.data.head? = some c → isSpaceC c = false) →
    pyStrip (t ++ ". " ++ "") = t ++ "." := by
  intro h
  apply String.ext
  show trimChars ((t ++ ". " ++ "").data) = (t ++ ".").data
  rw [String.data_append, String.data_append, String.data_append]
  show trimChars ((t.data ++ ['.', ' ']) ++ []) = t.data ++ ['.']
  rw [List.append_nil, trim_dot_space]
  exact trim_dot t.data h

/-- Claim C8: a bullet item whose descendants hold exactly one anchor,
that anchor carrying an href and the item holding no emphasis child,
produces a finding whose links are exactly that one href and whose
description is the title followed by a period with no author fragment;
an item with no anchor produces no finding and leaves the counter
unchanged; and a ul sibling contributes exactly its own bullet
findings, with no trailing sibling aggregation, after which the walk
resumes on the remaining chain. -/
theorem claim_C8_bullet_list :
    (∀ (li : Node) (c : Nat) (a : Node) (h : String),
        li.findAllDesc "a" = [a] → a.hrefA = some h →
        li.findAllDesc "em" = [] →
        ∃ iss, (liIssue li c).1 = some iss
          ∧ iss.vulnerable_code_links = [h]
          ∧ iss.description = iss.title ++ ".")
    ∧ (∀ (li : Node) (c : Nat),
        li.findAllDesc "a" = [] → liIssue li c = (none, c))
    ∧ (∀ (io hro : Option String) (ch rest : List Node) (c : Nat),
        lowSectionWalk (Node.elem "ul" io hro ch :: rest) c =
          ((ulIssues (Node.elem "ul" io hro ch) c).1 ++
             (lowSectionWalk rest (ulIssues (Node.elem "ul" io hro ch) c).2).1,
           (lowSectionWalk rest (ulIssues (Node.elem "ul" io hro ch) c).2).2)) := by
  refine ⟨?_, ?_, ?_⟩
  · intro li c a h hfa hhref hfe
    have hhead : (li.findAllDesc "a").head? = some a := by rw [hfa]; rfl
    have hem : (li.findAllDesc "em").head? = none := by rw [hfe]; rfl
    unfold liIssue
    rw [hhead]
    dsimp only
    rw [hem]
    cases hm : matchLMarker a.getText.data with
    | some idc =>
      refine ⟨_, rfl, ?_, ?_⟩
      · dsimp only
        rw [hhref]
        rfl
      · dsimp only
        exact pyStrip_title_dot _
          (fun c0 hc0 => trimChars_head_not_space _ c0 hc0)
    | none =>
      refine ⟨_, rfl, ?_, ?_⟩
      · dsimp only
        rw [hhref]
        rfl
      · dsimp only
        exact pyStrip_title_dot _
          (fun c0 hc0 => getText_head_not_space a c0 hc0)
  · intro li c hfa
    have hhead : (li.findAllDesc "a").head? = none := by rw [hfa]; rfl
    unfold liIssue
    rw [hhead]
  · intro io hro ch rest c
    have h1 : ((Node.elem "ul" io hro ch).name == some "h1") = false := rfl
    have h2 : ((Node.elem "ul" io hro ch).name == some "h2") = false := rfl
    have h5 : ((Node.elem "ul" io hro ch).name == some "ul") = true := rfl
    simp only [lowSectionWalk, h1, h2, h5, Bool.false_eq_true, if_false, if_true]

/-- Witness for claim C8 at the concrete bullet item with one github
link and no emphasis child. -/
theorem claim_C8_bullet_list_witness :
    exLi.findAllDesc "a" = [aHref "https://github.com/x" "Fix this"]
    ∧ ∃ iss, (liIssue exLi 1).1 = some iss
        ∧ iss.vulnerable_code_links = ["https://github.com/x"]
        ∧ iss.description = iss.title ++ "." :=
  ⟨rfl,
   claim_C8_bullet_list.1 exLi 1 (aHref "https://github.com/x" "Fix this")
     "https://github.com/x" rfl rfl rfl⟩

/-- Helper: every node counts at least one. -/
theorem sizeN_pos : ∀ n : Node, 1 ≤ sizeN n := by
  intro n
  cases n with
  | str s => simp [sizeN]
  | elem t i h cs => simp [sizeN]

/-- Helper: a forest holds at least as many nodes as its length. -/
theorem length_le_sizeL : ∀ ns : List Node, ns.length ≤ sizeL ns := by
  intro ns
  induction ns with
  | nil => simp [sizeL]
  | cons n rest ih =>
    have := sizeN_pos n
    simp only [List.length_cons, sizeL]
    omega

/-- Helper: the heading tagged aggregation only reads the prefix of
its input before the first re-triggering sibling. -/
theorem aggregate1_stops :
    ∀ sibs : List Node,
      aggregate1 sibs =
        aggregate1 (sibs.takeWhile (fun n => !isFormat1H2 n)) := by
  intro sibs
  induction sibs with
  | nil => rfl
  | cons sib rest ih =>
    by_cases h : isFormat1H2 sib
    · rw [List.takeWhile_cons_of_neg (by simp [h])]
      simp [aggregate1, h]
    · rw [List.takeWhile_cons_of_pos (by simp [h])]
      simp only [aggregate1, h, Bool.false_eq_true, if_false]
      rw [← ih]

/-- Helper: the bracket numbered aggregation only reads the prefix of
its input before the first h2 or h1. -/
theorem aggregate2_stops :
    ∀ sibs : List Node,
      aggregate2 sibs =
        aggregate2 (sibs.takeWhile
          (fun n => !(n.name == some "h2" || n.name == some "h1"))) := by
  intro sibs
  induction sibs with
  | nil => rfl
  | cons sib rest ih =>
    by_cases h : (sib.name == some "h2" || sib.name == some "h1") = true
    · rw [List.takeWhile_cons_of_neg (by simp [h])]
      simp [aggregate2, h]
    · rw [List.takeWhile_cons_of_pos (by simp [h])]
      simp only [aggregate2, h, Bool.false_eq_true, if_false]
      rw [← ih]

/-- Helper: the toList of an optional value has at most one element. -/
theorem optToList_len (o : Option Issue) : o.toList.length ≤ 1 := by
  cases o <;> simp

/-- Helper: a High or Medium section walk emits at most one finding
per sibling. -/
theorem hmSectionWalk_length :
    ∀ sibs : List Node, (hmSectionWalk sibs).length ≤ sibs.length := by
  intro sibs
  induction sibs with
  | nil => simp [hmSectionWalk]
  | cons sib rest ih =>
    simp only [hmSectionWalk, List.length_cons]
    by_cases h1 : sib.name == some "h1"
    · simp [h1]
    · simp only [h1, Bool.false_eq_true, if_false]
      by_cases h2 : sib.name == some "h2"
      · simp only [h2, if_true, List.length_append]
        have := optToList_len (parse_issue_from_h2 sib rest)
        omega
      · simp only [h2, Bool.false_eq_true, if_false]
        omega

/-- Helper: a bullet run emits at most one finding per item. -/
theorem lisIssues_length :
    ∀ (lis : List Node) (c : Nat),
      (lisIssues lis c).1.length ≤ lis.length := by
  intro lis
  induction lis with
  | nil => intro c; simp [lisIssues]
  | cons li rest ih =>
    intro c
    simp only [lisIssues, List.length_append, List.length_cons]
    have h1 := optToList_len (liIssue li c).1
    have h2 := ih (liIssue li c).2
    omega

/-- Helper: a list container has at least as many nodes as direct li
children. -/
theorem directLis_length : ∀ n : Node, (directLis n).length ≤ sizeN n := by
  intro n
  cases n with
  | str s => simp [directLis, sizeN]
  | elem t i h cs =>
    have h1 : (cs.filter (fun ch => ch.name == some "li")).length ≤ cs.length :=
      List.length_filter_le _ _
    have h2 := length_le_sizeL cs
    simp only [directLis, sizeN]
    omega

/-- Helper: a Low section walk emits at most one finding per node of
its input, counting descendants. -/
theorem lowSectionWalk_length :
    ∀ (sibs : List Node) (c : Nat),
      (lowSectionWalk sibs c).1.length ≤ sizeL sibs := by
  intro sibs
  induction sibs with
  | nil => intro c; simp [lowSectionWalk, sizeL]
  | cons sib rest ih =>
    intro c
    have hpos := sizeN_pos sib
    simp only [lowSectionWalk, sizeL]
    by_cases h1 : sib.name == some "h1"
    · simp only [h1, if_true]
      simp
    · simp only [h1, Bool.false_eq_true, if_false]
      by_cases h2 : sib.name == some "h2"
      · simp only [h2, if_true]
        cases hp : parse_issue_from_h2 sib rest with
        | some iss0 =>
          simp only [List.length_cons]
          have := ih (c + 1)
          omega
        | none =>
          by_cases h4 : matchNumTag sib.getText.data
          · simp only [h4, if_true, List.length_cons]
            have := ih (c + 1)
            omega
          · simp only [h4, Bool.false_eq_true, if_false]
            have := ih c
            omega
      · simp only [h2, Bool.false_eq_true, if_false]
        by_cases h5 : sib.name == some "ul"
        · simp only [h5, if_true, ulIssues, List.length_append]
          have hu := lisIssues_length (directLis sib) c
          have hd := directLis_length sib
          have := ih (lisIssues (directLis sib) c).2
          omega
        · simp only [h5, Bool.false_eq_true, if_false]
          have := ih c
          omega

/-- Helper: the High or Medium anchor scan emits at most
quadratically many findings in the document size. -/
theorem hmScan_length :
    ∀ (pfx : String) (ns : List Node),
      (hmScan pfx ns).length ≤ sizeL ns * sizeL ns := by
  intro pfx ns
  induction ns with
  | nil => simp [hmScan, sizeL]
  | cons n rest ih =>
    have hpos := sizeN_pos n
    have hlen : (hmSectionWalk rest).length ≤ sizeL rest :=
      le_trans (hmSectionWalk_length rest) (length_le_sizeL rest)
    simp only [hmScan, sizeL, List.length_append]
    have h2 : (1 + sizeL rest) * (1 + sizeL rest) =
        1 + 2 * sizeL rest + sizeL rest * sizeL rest := by ring
    have h3 : (1 + sizeL rest) * (1 + sizeL rest) ≤
        (sizeN n + sizeL rest) * (sizeN n + sizeL rest) :=
      Nat.mul_le_mul (by omega) (by omega)
    by_cases h : isH1IdPre pfx n
    · simp only [h, if_true]
      omega
    · simp only [h, Bool.false_eq_true, if_false, List.length_nil]
      omega

/-- Helper: the Low anchor scan emits at most quadratically many
findings in the document size. -/
theorem lowScan_length :
    ∀ ns : List Node, (lowScan ns).length ≤ sizeL ns * sizeL ns := by
  intro ns
  induction ns with
  | nil => simp [lowScan, sizeL]
  | cons n rest ih =>
    have hpos := sizeN_pos n
    have hlen : ((lowSectionWalk rest 1).1).length ≤ sizeL rest :=
      lowSectionWalk_length rest 1
    simp only [lowScan, sizeL, List.length_append]
    have h2 : (1 + sizeL rest) * (1 + sizeL rest) =
        1 + 2 * sizeL rest + sizeL rest * sizeL rest := by ring
    have h3 : (1 + sizeL rest) * (1 + sizeL rest) ≤
        (sizeN n + sizeL rest) * (sizeN n + sizeL rest) :=
      Nat.mul_le_mul (by omega) (by omega)
    by_cases h : isLowAnchor n
    · simp only [h, if_true]
      omega
    · simp only [h, Bool.false_eq_true, if_false, List.length_nil]
      omega

/-- Claim C9: extraction terminates on every finite document (all the
walkers are total structurally recursive functions over the sibling
chain) and does bounded, input sized work: the two finding aggregators
consume exactly the prefix of their sibling chain up to their stop
condition, each section walk emits at most one finding per node it can
visit, and the whole extraction emits at most three times the squared
node count of the document. -/
theorem claim_C9_termination :
    (∀ sibs : List Node,
        aggregate1 sibs =
          aggregate1 (sibs.takeWhile (fun n => !isFormat1H2 n)))
    ∧ (∀ sibs : List Node,
        aggregate2 sibs =
          aggregate2 (sibs.takeWhile
            (fun n => !(n.name == some "h2" || n.name == some "h1"))))
    ∧ (∀ sibs : List Node, (hmSectionWalk sibs).length ≤ sibs.length)
    ∧ (∀ (sibs : List Node) (c : Nat),
        (lowSectionWalk sibs c).1.length ≤ sizeL sibs)
    ∧ (∀ doc : List Node,
        (extract_all_issues doc).length ≤ 3 * (sizeL doc * sizeL doc)) := by
  refine ⟨aggregate1_stops, aggregate2_stops, hmSectionWalk_length,
          lowSectionWalk_length, ?_⟩
  intro doc
  have h1 := hmScan_length "high-risk-findings" doc
  have h2 := hmScan_length "medium-risk-findings" doc
  have h3 := lowScan_length doc
  simp only [extract_all_issues, List.length_append]
  omega

end C4Audit
